import Mathlib

/-!
# shark-bite receiver firmware (nano2): tick source, bring-up and link bookkeeping

A shallow embedding of `firmware/nano2/main.c` and of the data declarations of
`firmware/nano2/radio.h`.  Machine integers are natural numbers reduced modulo
`2 ^ w` at every place where the C code can overflow or truncate.  The hardware
registers touched by `main.c` are fields of one `Machine` record; every C
function becomes a function on that record.
-/

namespace SharkBite

/-! ## Constants of `main.c` and `radio.h` -/

/-- The `F_CPU` define of main.c, line 4: the peripheral clock in Hz. -/
def F_CPU : Nat := 10000000

/-- The `NR_HOP_CHANNELS` define of radio.h. -/
def NR_HOP_CHANNELS : Nat := 16

/-- The `POSSIBLE_TX_COUNT` define of radio.h. -/
def POSSIBLE_TX_COUNT : Nat := 4

/-- The `NUM_CONTROL_CHANNELS` define of radio.h. -/
def NUM_CONTROL_CHANNELS : Nat := 6

/-- The `RADIO_PACKET_LEN` define of radio.h. -/
def RADIO_PACKET_LEN : Nat := 37

/-- The `RADIO_STATE_BIND` define of radio.h. -/
def RADIO_STATE_BIND : Nat := 0

/-- The `RADIO_STATE_HOPPING` define of radio.h. -/
def RADIO_STATE_HOPPING : Nat := 2

/-! ## Bit masks of the device header (`avr/io.h`, tinyAVR 0/1-series) -/

/-- Capture interrupt bit of `TCBn.INTCTRL` and `TCBn.INTFLAGS` (bit 0). -/
def TCB_CAPT_bm : Nat := 0x01

/-- Enable bit of `TCBn.CTRLA` (bit 0). -/
def TCB_ENABLE_bm : Nat := 0x01

/-- Clock select group value `CLK_PER/2` of `TCBn.CTRLA` (bits 2:1 = 01). -/
def TCB_CLKSEL_CLKDIV2_gc : Nat := 0x02

/-- Transmitter enable bit of `USART0.CTRLB`. -/
def USART_TXEN_bm : Nat := 0x40

/-- Receiver enable bit of `USART0.CTRLB`. -/
def USART_RXEN_bm : Nat := 0x80

/-- Alternate pin position of USART0 in `PORTMUX.CTRLB`. -/
def PORTMUX_USART0_ALTERNATE_gc : Nat := 0x01

/-- Main clock prescaler division by two, group value of `CLKCTRL.MCLKCTRLB`. -/
def CLKCTRL_PDIV_2X_gc : Nat := 0x00

/-! ## Data model -/

/-- A transmitter identity, the `uint8_t tx_id[4]` of radio.h; equality is
byte-wise. -/
structure TxId where
  b0 : Nat
  b1 : Nat
  b2 : Nat
  b3 : Nat
deriving DecidableEq, Repr

/-- The `possible_tx` struct of radio.h: a candidate identity and the number of
packets received from it (`uint16_t`). -/
structure possible_tx where
  tx_id : TxId
  count : Nat
deriving DecidableEq, Repr

/-- The `radio_state_t` struct of radio.h, field by field. -/
structure radio_state_t where
  tx_id : TxId
  hop_channels : List Nat
  state : Nat
  hop_index : Nat
  missed_packet_count : Nat
  packet : List Nat
  packet_is_valid : Bool
  packet_counter : Nat
  possible_tx_list : List possible_tx
  got_signal_ever : Nat
  sticks : List Nat
deriving DecidableEq, Repr

/-- Modelled from the spec: `state.h`, which declares `master_state_t`, is not
among the sources.  The tick counter is the 32-bit unsigned field that
`get_tickcount` copies into its `uint32_t` local; all the other fields of the
struct are kept abstract in `rest`. -/
structure master_state_t (ρ : Type) where
  tickcount : Nat
  rest : ρ
deriving DecidableEq, Repr

/-- The registers of timer TCB1 that main.c touches.  `INTFLAGS` implements a
single flag, CAPT, on this device family; it is kept as that one bit and is
accessed through `TCB_INTFLAGS_read` and `TCB_INTFLAGS_write`. -/
structure TCB_t where
  CTRLA : Nat
  CTRLB : Nat
  INTCTRL : Nat
  INTFLAGS_CAPT : Bool
  CNT : Nat
  CCMP : Nat
deriving DecidableEq, Repr

/-- One item of diagnostic output: `diag_puts` emits the text as it is,
`diag_println` emits the text as a line. -/
inductive DiagOut where
  | puts (text : String)
  | println (text : String)
deriving DecidableEq, Repr

/-- The machine state seen by main.c: the two global structs, the global
interrupt-enable flag of SREG, the peripheral registers that are written, and
the diagnostic output emitted so far. -/
structure Machine (ρ : Type) where
  master_state : master_state_t ρ
  radio_state : radio_state_t
  SREG_I : Bool
  TCB1 : TCB_t
  CLKCTRL_MCLKCTRLB : Nat
  PORTMUX_CTRLB : Nat
  PORTA_OUT : Nat
  PORTA_DIR : Nat
  USART0_BAUD : Nat
  USART0_CTRLB : Nat
  RSTCTRL_SWRR : Nat
  diag : List DiagOut
deriving DecidableEq, Repr

/-- The result of running a function that may never return: either it
returned in state `s`, or control is still inside a loop that has no exit,
in state `s`, when the iteration budget was used up. -/
inductive Outcome (σ : Type) where
  | returned (s : σ)
  | spinning (s : σ)
deriving DecidableEq, Repr

/-- Sequencing: the continuation runs only if the first part returned. -/
def Outcome.andThen {σ : Type} (o : Outcome σ) (k : σ → Outcome σ) : Outcome σ :=
  match o with
  | .returned s => k s
  | .spinning s => .spinning s

/-! ## Machine arithmetic -/

/-- Truncation to `uint16_t`. -/
def u16 (n : Nat) : Nat := n % 2 ^ 16

/-- Truncation to `uint32_t`. -/
def u32 (n : Nat) : Nat := n % 2 ^ 32

/-- Unsigned 32-bit subtraction `a - b` of two `uint32_t` values. -/
def sub32 (a b : Nat) : Nat := (a + 2 ^ 32 - b % 2 ^ 32) % 2 ^ 32

/-- Conversion of a 16-bit `size_t` value to the 16-bit `int` of the target. -/
def int_of_size_t (n : Nat) : Int :=
  if n % 2 ^ 16 < 2 ^ 15 then ((n % 2 ^ 16 : Nat) : Int) else ((n % 2 ^ 16 : Nat) : Int) - 2 ^ 16

/-! ## Interrupt flag instructions and peripheral register access -/

/-- The `cli()` instruction: clear the global interrupt-enable flag. -/
def cli {ρ : Type} (m : Machine ρ) : Machine ρ := { m with SREG_I := false }

/-- The `sei()` instruction: set the global interrupt-enable flag. -/
def sei {ρ : Type} (m : Machine ρ) : Machine ρ := { m with SREG_I := true }

/-- Reading `TCBn.INTFLAGS`: the CAPT bit, all other bits read as zero. -/
def TCB_INTFLAGS_read (t : TCB_t) : Nat := if t.INTFLAGS_CAPT then TCB_CAPT_bm else 0

/-- Writing `v` to `TCBn.INTFLAGS`: a flag is cleared by writing a one to its
bit position, and is left alone by a zero. -/
def TCB_INTFLAGS_write (t : TCB_t) (v : Nat) : TCB_t :=
  { t with INTFLAGS_CAPT := t.INTFLAGS_CAPT && !(v &&& TCB_CAPT_bm == TCB_CAPT_bm) }

/-- The busy wait `_delay_ms`: no effect on the modelled state. -/
def _delay_ms {ρ : Type} (_ms : Nat) (m : Machine ρ) : Machine ρ := m

/-- Modelled from the spec: `diag.c` is not among the sources.  `diag_puts`
emits its text on the diagnostic output. -/
def diag_puts {ρ : Type} (text : String) (m : Machine ρ) : Machine ρ :=
  { m with diag := m.diag ++ [DiagOut.puts text] }

/-- Modelled from the spec: `diag.c` is not among the sources.  `diag_println`
emits its text as one line on the diagnostic output. -/
def diag_println {ρ : Type} (text : String) (m : Machine ρ) : Machine ρ :=
  { m with diag := m.diag ++ [DiagOut.println text] }

/-! ## The functions of `main.c` -/

/-- Function `init_clock` (main.c 23-29). -/
def init_clock {ρ : Type} (m : Machine ρ) : Machine ρ :=
  let val := (CLKCTRL_PDIV_2X_gc ||| 0x1) % 2 ^ 8
  _delay_ms 10 { m with CLKCTRL_MCLKCTRLB := val }

/-- The value of `baud_param` in `init_serial` (main.c 42-44): both products
and the quotient are `uint32_t` arithmetic, the result is stored in a
`uint16_t`. -/
def baud_param (clk_per_hz want_baud_hz : Nat) : Nat :=
  u16 (u32 (64 * clk_per_hz) / u32 (16 * want_baud_hz))

/-- Function `init_serial` (main.c 31-50). -/
def init_serial {ρ : Type} (m : Machine ρ) : Machine ρ :=
  let m1 := { m with PORTMUX_CTRLB := PORTMUX_USART0_ALTERNATE_gc }
  let m2 := { m1 with PORTA_OUT := m1.PORTA_OUT ||| (1 <<< 1) }
  let m3 := { m2 with PORTA_DIR := m2.PORTA_DIR ||| (1 <<< 1) }
  let want_baud_hz := u32 230400
  let clk_per_hz := u32 F_CPU
  let m4 := { m3 with USART0_BAUD := baud_param clk_per_hz want_baud_hz }
  { m4 with USART0_CTRLB := USART_TXEN_bm ||| USART_RXEN_bm }

/-- Function `uninit_serial` (main.c 52-56). -/
def uninit_serial {ρ : Type} (m : Machine ρ) : Machine ρ :=
  let m1 := { m with USART0_CTRLB := 0 }
  { m1 with PORTA_DIR := m1.PORTA_DIR &&& (0xFF ^^^ (1 <<< 1)) }

/-- The constant `compare_value` of `init_timer`, an `unsigned short`. -/
def compare_value : Nat := u16 50000

/-- Function `init_timer` (main.c 58-73). -/
def init_timer {ρ : Type} (m : Machine ρ) : Machine ρ :=
  let t1 := { m.TCB1 with CCMP := u16 compare_value }
  let t2 := { t1 with INTCTRL := TCB_CAPT_bm }
  let t3 := { t2 with CTRLB := 0 }
  let t4 := { t3 with CNT := 0 }
  let t5 := { t4 with CTRLA := TCB_ENABLE_bm ||| TCB_CLKSEL_CLKDIV2_gc }
  { m with TCB1 := t5, master_state := { m.master_state with tickcount := 0 } }

/-- The handler `ISR(TCB1_INT_vect)` (main.c 75-79), run to completion. -/
def ISR_TCB1_INT_vect {ρ : Type} (m : Machine ρ) : Machine ρ :=
  let m1 := { m with master_state :=
    { m.master_state with tickcount := u32 (m.master_state.tickcount + 1) } }
  { m1 with TCB1 := TCB_INTFLAGS_write m1.TCB1 (TCB_INTFLAGS_read m1.TCB1 ||| TCB_CAPT_bm) }

/-- The body of the `while (1)` loop of `trigger_reset`, iterated `fuel`
times: each turn writes 1 to `RSTCTRL.SWRR`. -/
def reset_loop {ρ : Type} : Nat → Machine ρ → Machine ρ
  | 0, m => m
  | fuel + 1, m => reset_loop fuel { m with RSTCTRL_SWRR := 1 }

/-- Function `trigger_reset` (main.c 81-88): the loop has no exit, so whatever the
iteration budget, control is still inside it. -/
def trigger_reset {ρ : Type} (fuel : Nat) (m : Machine ρ) : Outcome (Machine ρ) :=
  Outcome.spinning (reset_loop fuel (cli m))

/-- Function `get_tickcount` (main.c 90-97): the value returned and the state left. -/
def get_tickcount {ρ : Type} (m : Machine ρ) : Nat × Machine ρ :=
  let m1 := cli m
  let tc := u32 m1.master_state.tickcount
  let m2 := sei m1
  (tc, m2)

/-- Function `epic_fail` (main.c 99-106). -/
def epic_fail {ρ : Type} (fuel : Nat) (reason : String) (m : Machine ρ) :
    Outcome (Machine ρ) :=
  let m1 := diag_puts reason m
  let m2 := diag_puts "\r\nFAIL FAIL FAIL!\r\n\n\n" m1
  let m3 := uninit_serial m2
  let m4 := _delay_ms 250 m3
  trigger_reset fuel m4

/-- The C library `strlen` on the bytes found at a pointer: the number of
bytes before the first NUL (the end of the list also ends the string). -/
def strlen : List Nat → Nat
  | [] => 0
  | c :: cs => if c = 0 then 0 else strlen cs + 1

/-- The byte `p[i]` of a string; past the end of the list is the NUL. -/
def char_at (p : List Nat) (i : Nat) : Nat := p.getD i 0

/-- Function `integrity_check` (main.c 108-121).  If `epic_fail` returned, control would
fall through to the final `diag_println`, as in the C text. -/
def integrity_check {ρ : Type} (fuel : Nat) (end_marker : List Nat) (m : Machine ρ) :
    Outcome (Machine ρ) :=
  let l : Int := int_of_size_t (strlen end_marker)
  let o : Outcome (Machine ρ) :=
    if l ≠ 8 ∨ char_at end_marker 0 ≠ 'S'.toNat then
      epic_fail fuel "Integrity check failed" m
    else Outcome.returned m
  o.andThen (fun m1 => Outcome.returned (diag_println "Integrity check ok" m1))

/-- The handler run `n` times in a row, each run to completion. -/
def run_isr {ρ : Type} : Nat → Machine ρ → Machine ρ
  | 0, m => m
  | n + 1, m => run_isr n (ISR_TCB1_INT_vect m)

/-- The clock divider selected by the CLKSEL bits (2:1) of `TCBn.CTRLA`:
`CLK_PER` or `CLK_PER/2`; the third source, the clock of timer TCA, is not a
fixed division of `CLK_PER`. -/
def TCB_clk_div (ctrla : Nat) : Option Nat :=
  match (ctrla / 2) % 4 with
  | 0 => some 1
  | 1 => some 2
  | _ => none

/-- One clock of timer TCBn as the peripheral counts in periodic interrupt
mode (mode bits 2:0 of `CTRLB` zero): an enabled timer counts `CNT` up to the
compare value `CCMP`; on the clock after the counter has reached it, the
counter restarts from zero and the capture flag is raised.  A timer that is
disabled or in another mode is left as it is. -/
def TCB_clock (t : TCB_t) : TCB_t :=
  if t.CTRLA % 2 = 1 ∧ t.CTRLB % 8 = 0 then
    if t.CNT = t.CCMP then { t with CNT := 0, INTFLAGS_CAPT := true }
    else { t with CNT := u16 (t.CNT + 1) }
  else t

/-- Runs the timer until the capture flag is next raised, for at most `fuel`
clocks: the number of timer clocks taken and the timer registers at that
moment; `none` when the flag has not come up within `fuel` clocks. -/
def run_to_capture : Nat → TCB_t → Option (Nat × TCB_t)
  | 0, _ => none
  | fuel + 1, t =>
    let t1 := TCB_clock { t with INTFLAGS_CAPT := false }
    if t1.INTFLAGS_CAPT then some (1, t1)
    else (run_to_capture fuel t1).map (fun r => (r.1 + 1, r.2))

/-! ## `get_tickcount` on the 8-bit core, interleaved with the timer interrupt

The core moves one byte at a time, so the assignment
`tc = master_state.tickcount` is four loads.  Between any two steps of the
main context the handler may run, any number of times, but only while the
global interrupt-enable flag is set.  -/

/-- Byte `i` of a value held in memory. -/
def byte_of (v i : Nat) : Nat := (v / 256 ^ i) % 256

/-- The atomic steps of the main context inside `get_tickcount`. -/
inductive Step where
  | cli
  | ld (i : Nat)
  | sei
deriving DecidableEq, Repr

/-- The main context in the middle of `get_tickcount`: the machine and the
bytes of the local `tc` loaded so far. -/
structure Frame (ρ : Type) where
  m : Machine ρ
  tc : Nat

/-- One step of the main context. -/
def exec_step {ρ : Type} (st : Step) (f : Frame ρ) : Frame ρ :=
  match st with
  | .cli => { f with m := cli f.m }
  | .ld i => { f with tc := f.tc + byte_of f.m.master_state.tickcount i * 256 ^ i }
  | .sei => { f with m := sei f.m }

/-- The steps of `get_tickcount`, the four bytes being loaded in the given
order. -/
def get_tickcount_steps (order : List Nat) : List Step :=
  [Step.cli] ++ order.map Step.ld ++ [Step.sei]

/-- The handler is served `k` times if interrupts are enabled, and not at all
if they are masked. -/
def serve_irqs {ρ : Type} (k : Nat) (m : Machine ρ) : Machine ρ :=
  if m.SREG_I then run_isr k m else m

/-- Runs the steps; before each step the handler is served as often as the
schedule says (`ks`, one number per step, zero when the list is used up).
The result lists every frame passed through, in order. -/
def run_steps {ρ : Type} : List Step → List Nat → Frame ρ → List (Frame ρ)
  | [], _, _ => []
  | st :: rest, ks, f =>
    let f1 : Frame ρ := { f with m := serve_irqs (ks.headD 0) f.m }
    let f2 := exec_step st f1
    f1 :: f2 :: run_steps rest ks.tail f2

/-- The interleaved `get_tickcount`: the value returned, and the tick counter
at every instant from the call to the return. -/
def get_tickcount_interleaved {ρ : Type} (order ks : List Nat) (m : Machine ρ) :
    Nat × List Nat :=
  let f0 : Frame ρ := { m := m, tc := 0 }
  let tr := run_steps (get_tickcount_steps order) ks f0
  ((tr.getLastD f0).tc, (f0 :: tr).map (fun f => f.m.master_state.tickcount))

/-- The same four loads without the `cli`/`sei` bracket, for comparison. -/
def unprotected_read {ρ : Type} (order ks : List Nat) (m : Machine ρ) : Nat :=
  let f0 : Frame ρ := { m := m, tc := 0 }
  ((run_steps (order.map Step.ld) ks f0).getLastD f0).tc

/-! ## Binding tracker and hop cursor -/

/-- A slot of `possible_tx_list` is occupied when its packet count is not
zero; a cleared slot has count zero. -/
def possible_tx.occupied (p : possible_tx) : Bool := p.count != 0

/-- The cleared table: `POSSIBLE_TX_COUNT` slots, all zero. -/
def possible_tx_list_reset : List possible_tx :=
  List.replicate POSSIBLE_TX_COUNT { tx_id := { b0 := 0, b1 := 0, b2 := 0, b3 := 0 }, count := 0 }

/-- The identities of the occupied slots, in slot order. -/
def occupied_ids (t : List possible_tx) : List TxId :=
  (t.filter possible_tx.occupied).map possible_tx.tx_id

/-- Whether an occupied slot holds the identity. -/
def tx_seen (id : TxId) (t : List possible_tx) : Bool :=
  t.any (fun p => p.occupied && p.tx_id == id)

/-- Increments the count (`uint16_t`) of the first occupied slot holding the
identity. -/
def tx_increment (id : TxId) : List possible_tx → List possible_tx
  | [] => []
  | p :: ps =>
    if p.occupied && p.tx_id == id then { p with count := u16 (p.count + 1) } :: ps
    else p :: tx_increment id ps

/-- Creates a slot for the identity in the first free slot, with count one;
with no free slot the table is returned as it is. -/
def tx_create (id : TxId) : List possible_tx → List possible_tx
  | [] => []
  | p :: ps =>
    if p.occupied then p :: tx_create id ps
    else { tx_id := id, count := 1 } :: ps

/-- Modelled from the spec: `radio.c` is not among the sources.  The Binding
Tracker operation `observe(identity)`: it increments the matching slot's
count, or creates a new slot if capacity remains and the identity is unseen,
or is a no-op if capacity is exhausted and the identity is unseen. -/
def observe (id : TxId) (t : List possible_tx) : List possible_tx :=
  if tx_seen id t then tx_increment id t else tx_create id t

/-- Modelled from the spec: `radio.c` is not among the sources.  The table
after a sequence of `observe` calls, starting from the cleared table. -/
def observe_all (ids : List TxId) : List possible_tx :=
  ids.foldl (fun t id => observe id t) possible_tx_list_reset

/-- Modelled from the spec: `radio.c` is not among the sources.  The Hop
Sequencer operation `next(cursor)`: advances by one, wrapping at 16. -/
def hop_next (cursor : Nat) : Nat := (cursor + 1) % NR_HOP_CHANNELS

/-- Modelled from the spec: `radio.c` is not among the sources.  One
expected-packet cycle in the hopping state: on an accepted packet the stick
values are stored, the missed-packet counter is reset and the cursor advances;
on a missed packet the counter is incremented and the cursor still advances.
The failsafe and re-bind thresholds, whose values the spec leaves open, are
not part of this step. -/
def hopping_cycle (pkt : Option (List Nat)) (rs : radio_state_t) : radio_state_t :=
  match pkt with
  | some sticks =>
    { rs with sticks := sticks, missed_packet_count := 0, hop_index := hop_next rs.hop_index }
  | none =>
    { rs with missed_packet_count := u16 (rs.missed_packet_count + 1),
              hop_index := hop_next rs.hop_index }

/-- Modelled from the spec: `radio.c` is not among the sources.  The cursor
positions used by consecutive cycles, one per cycle, in order. -/
def hop_positions : List (Option (List Nat)) → radio_state_t → List Nat
  | [], _ => []
  | pkt :: pkts, rs => rs.hop_index :: hop_positions pkts (hopping_cycle pkt rs)

/-! ## Concrete states used in the examples -/

/-- A radio state with everything cleared. -/
def radio_state_zero : radio_state_t :=
  { tx_id := { b0 := 0, b1 := 0, b2 := 0, b3 := 0 }, hop_channels := List.replicate 16 0,
    state := RADIO_STATE_BIND, hop_index := 0, missed_packet_count := 0,
    packet := List.replicate 37 0, packet_is_valid := false, packet_counter := 0,
    possible_tx_list := possible_tx_list_reset, got_signal_ever := 0,
    sticks := List.replicate 6 0 }

/-- A machine with tick counter `t` and interrupt-enable flag `i`, everything
else cleared. -/
def machine_at (t : Nat) (i : Bool) : Machine Unit :=
  { master_state := { tickcount := t, rest := () }, radio_state := radio_state_zero,
    SREG_I := i,
    TCB1 := { CTRLA := 0, CTRLB := 0, INTCTRL := 0, INTFLAGS_CAPT := true, CNT := 0, CCMP := 0 },
    CLKCTRL_MCLKCTRLB := 0, PORTMUX_CTRLB := 0, PORTA_OUT := 0, PORTA_DIR := 0,
    USART0_BAUD := 0, USART0_CTRLB := 0, RSTCTRL_SWRR := 0, diag := [] }

/-! ## Tick source: `get_tickcount` and the timer handler -/

/-- The handler adds one to the counter modulo `2 ^ 32`. -/
theorem ISR_tickcount {ρ : Type} (m : Machine ρ) :
    (ISR_TCB1_INT_vect m).master_state.tickcount = (m.master_state.tickcount + 1) % 2 ^ 32 := by
  simp [ISR_TCB1_INT_vect, u32]

/-- The handler leaves the global interrupt-enable flag as it found it. -/
theorem ISR_SREG_I {ρ : Type} (m : Machine ρ) :
    (ISR_TCB1_INT_vect m).SREG_I = m.SREG_I := by
  simp [ISR_TCB1_INT_vect]

/-- After `n` runs of the handler the counter has advanced by `n` modulo
`2 ^ 32`. -/
theorem run_isr_tickcount {ρ : Type} (n : Nat) (m : Machine ρ) :
    (run_isr n m).master_state.tickcount % 2 ^ 32 = (m.master_state.tickcount + n) % 2 ^ 32 := by
  induction n generalizing m with
  | zero => simp [run_isr]
  | succ k ih =>
    rw [run_isr, ih, ISR_tickcount]
    omega

/-- Runs of the handler leave the global interrupt-enable flag alone. -/
theorem run_isr_SREG_I {ρ : Type} (n : Nat) (m : Machine ρ) :
    (run_isr n m).SREG_I = m.SREG_I := by
  induction n generalizing m with
  | zero => simp [run_isr]
  | succ k ih => rw [run_isr, ih, ISR_SREG_I]

/-- The value returned by `get_tickcount` is the counter, as a `uint32_t`. -/
theorem get_tickcount_value {ρ : Type} (m : Machine ρ) :
    (get_tickcount m).1 = m.master_state.tickcount % 2 ^ 32 := by
  simp [get_tickcount, cli, u32]

/-- C1: for every state of the tick counter, `get_tickcount` returns exactly
the value `master_state.tickcount` holds, a 32-bit unsigned value: with the
counter at `t`, the result is `t`. -/
theorem get_tickcount_returns_tickcount {ρ : Type} (m : Machine ρ)
    (h : m.master_state.tickcount < 2 ^ 32) :
    (get_tickcount m).1 = m.master_state.tickcount := by
  rw [get_tickcount_value]
  exact Nat.mod_eq_of_lt h

/-- C1 at the largest counter value, with interrupts enabled. -/
theorem get_tickcount_returns_tickcount_witness :
    (machine_at 4294967295 true).master_state.tickcount < 2 ^ 32 ∧
    (get_tickcount (machine_at 4294967295 true)).1 = 4294967295 :=
  ⟨by decide, get_tickcount_returns_tickcount (machine_at 4294967295 true) (by decide)⟩

/-- C2 as stated fails: called with the global interrupt-enable flag clear,
`get_tickcount` returns with the flag set, so the state after the call is not
the state before it. -/
theorem get_tickcount_sets_interrupt_flag :
    (machine_at 7 false).SREG_I = false ∧
    (get_tickcount (machine_at 7 false)).2.SREG_I = true ∧
    (get_tickcount (machine_at 7 false)).2 ≠ machine_at 7 false := by
  refine ⟨rfl, rfl, ?_⟩
  intro h
  have h2 := congrArg Machine.SREG_I h
  simp [get_tickcount, sei, cli, machine_at] at h2

/-- C2 amended: `get_tickcount` changes nothing but the global
interrupt-enable flag, which is set on return whatever it was on entry; the
tick counter is unchanged, and the state after the call equals the state
before it exactly when the call was made with the flag set. -/
theorem get_tickcount_frame {ρ : Type} (m : Machine ρ) :
    (get_tickcount m).2 = { m with SREG_I := true } ∧
    (get_tickcount m).2.master_state.tickcount = m.master_state.tickcount ∧
    (get_tickcount m).2.SREG_I = true ∧
    ((get_tickcount m).2 = m ↔ m.SREG_I = true) := by
  refine ⟨rfl, rfl, rfl, ?_⟩
  constructor
  · intro h
    have h2 := congrArg Machine.SREG_I h
    simpa [get_tickcount, sei, cli] using h2.symm
  · intro h
    cases m
    simp only [get_tickcount, sei, cli] at h ⊢
    simp [h]

/-- C2 amended, at a state with interrupts enabled: the state is unchanged. -/
theorem get_tickcount_frame_witness :
    (get_tickcount (machine_at 7 true)).2 = machine_at 7 true :=
  (get_tickcount_frame (machine_at 7 true)).2.2.2.mpr rfl

/-- C3: one execution of the handler `ISR(TCB1_INT_vect)` leaves
`master_state.tickcount` equal to its previous value plus one modulo
`2 ^ 32`, leaves every other field of `master_state` and the whole of
`radio_state` unchanged, and its only other effect is that the capture
interrupt flag of the timer is cleared. -/
theorem ISR_only_increments_tickcount {ρ : Type} (m : Machine ρ) :
    (ISR_TCB1_INT_vect m).master_state.tickcount = (m.master_state.tickcount + 1) % 2 ^ 32 ∧
    (ISR_TCB1_INT_vect m).master_state.rest = m.master_state.rest ∧
    (ISR_TCB1_INT_vect m).radio_state = m.radio_state ∧
    (ISR_TCB1_INT_vect m).TCB1.INTFLAGS_CAPT = false ∧
    ISR_TCB1_INT_vect m =
      { m with
        master_state := { m.master_state with
          tickcount := (m.master_state.tickcount + 1) % 2 ^ 32 },
        TCB1 := { m.TCB1 with INTFLAGS_CAPT := false } } := by
  have hw : ∀ t : TCB_t, TCB_INTFLAGS_write t (TCB_INTFLAGS_read t ||| TCB_CAPT_bm)
      = { t with INTFLAGS_CAPT := false } := by
    intro t
    cases t with
    | mk a b c f d e => cases f <;> simp [TCB_INTFLAGS_write, TCB_INTFLAGS_read, TCB_CAPT_bm]
  refine ⟨ISR_tickcount m, rfl, rfl, ?_, ?_⟩
  · simp [ISR_TCB1_INT_vect, hw]
  · simp [ISR_TCB1_INT_vect, hw, u32]

/-- C4: tick differences are correct across wraparound.  If `get_tickcount`
returns `t1`, then exactly `n < 2 ^ 32` timer interrupts run, then
`get_tickcount` returns `t2`, the unsigned 32-bit difference `t2 - t1` is `n`;
and when the counter does not wrap in between, `t1 ≤ t2`. -/
theorem tick_difference_across_wraparound {ρ : Type} (m : Machine ρ) (n : Nat)
    (ht : m.master_state.tickcount < 2 ^ 32) (hn : n < 2 ^ 32) :
    sub32 (get_tickcount (run_isr n (get_tickcount m).2)).1 (get_tickcount m).1 = n ∧
    (m.master_state.tickcount + n < 2 ^ 32 →
      (get_tickcount m).1 ≤ (get_tickcount (run_isr n (get_tickcount m).2)).1) := by
  have h1 : (get_tickcount m).1 = m.master_state.tickcount :=
    (get_tickcount_value m).trans (Nat.mod_eq_of_lt ht)
  have h2 : (get_tickcount (run_isr n (get_tickcount m).2)).1
      = (m.master_state.tickcount + n) % 2 ^ 32 := by
    have := run_isr_tickcount n (get_tickcount m).2
    simpa [get_tickcount, cli, sei, u32] using this
  rw [h1, h2]
  constructor
  · simp only [sub32]
    omega
  · intro hlt
    rw [Nat.mod_eq_of_lt hlt]
    omega

/-- C4 at a counter two below the top, with five interrupts: the counter
wraps, and the difference is still five. -/
theorem tick_difference_across_wraparound_witness :
    (machine_at 4294967294 true).master_state.tickcount < 2 ^ 32 ∧ 5 < 2 ^ 32 ∧
    (get_tickcount (machine_at 4294967294 true)).1 = 4294967294 ∧
    (get_tickcount (run_isr 5 (get_tickcount (machine_at 4294967294 true)).2)).1 = 3 ∧
    sub32 (get_tickcount (run_isr 5 (get_tickcount (machine_at 4294967294 true)).2)).1
      (get_tickcount (machine_at 4294967294 true)).1 = 5 :=
  ⟨by decide, by decide, by decide, by decide,
    (tick_difference_across_wraparound (machine_at 4294967294 true) 5
      (by decide) (by decide)).1⟩

/-! ## Atomicity of the read -/

/-- Runs of the handler keep the counter a 32-bit value. -/
theorem run_isr_tickcount_lt {ρ : Type} (n : Nat) (m : Machine ρ)
    (h : m.master_state.tickcount < 2 ^ 32) :
    (run_isr n m).master_state.tickcount < 2 ^ 32 := by
  induction n generalizing m with
  | zero => simpa [run_isr] using h
  | succ k ih =>
    rw [run_isr]
    apply ih
    rw [ISR_tickcount]
    exact Nat.mod_lt _ (by decide)

/-- With interrupts masked no handler is served. -/
theorem serve_irqs_masked {ρ : Type} (k : Nat) (m : Machine ρ) (h : m.SREG_I = false) :
    serve_irqs k m = m := by
  simp [serve_irqs, h]

/-- Serving interrupts keeps the counter a 32-bit value. -/
theorem serve_irqs_tickcount_lt {ρ : Type} (k : Nat) (m : Machine ρ)
    (h : m.master_state.tickcount < 2 ^ 32) :
    (serve_irqs k m).master_state.tickcount < 2 ^ 32 := by
  unfold serve_irqs
  split
  · exact run_isr_tickcount_lt k m h
  · exact h

/-- The counter after serving interrupts is the old one, or the old one
advanced by the number of handler runs. -/
theorem serve_irqs_tickcount {ρ : Type} (k : Nat) (m : Machine ρ)
    (h : m.master_state.tickcount < 2 ^ 32) :
    (serve_irqs k m).master_state.tickcount = m.master_state.tickcount ∨
    (serve_irqs k m).master_state.tickcount = (m.master_state.tickcount + k) % 2 ^ 32 := by
  unfold serve_irqs
  split
  · right
    have h1 := run_isr_tickcount k m
    rw [Nat.mod_eq_of_lt (run_isr_tickcount_lt k m h)] at h1
    exact h1
  · left
    rfl

/-- The last frame of a run, step by step. -/
theorem run_steps_last {ρ : Type} (st : Step) (rest : List Step) (ks : List Nat)
    (f : Frame ρ) :
    (run_steps (st :: rest) ks f).getLastD f =
      (run_steps rest ks.tail
        (exec_step st { f with m := serve_irqs (ks.headD 0) f.m })).getLastD
        (exec_step st { f with m := serve_irqs (ks.headD 0) f.m }) := by
  rw [run_steps, List.getLastD_cons, List.getLastD_cons]

/-- With interrupts masked, the loads all read the same counter value, and
the concluding `sei` does not touch what was loaded. -/
theorem loads_masked {ρ : Type} (order : List Nat) (ks : List Nat) (f : Frame ρ)
    (h : f.m.SREG_I = false) :
    ((run_steps (order.map Step.ld ++ [Step.sei]) ks f).getLastD f).tc =
      f.tc + (order.map (fun i => byte_of f.m.master_state.tickcount i * 256 ^ i)).sum := by
  induction order generalizing ks f with
  | nil =>
    simp [run_steps, exec_step]
  | cons i rest ih =>
    rw [List.map_cons, List.cons_append, run_steps_last]
    rw [serve_irqs_masked _ _ h]
    rw [ih]
    · simp [exec_step, Nat.add_assoc]
    · simpa [exec_step] using h

/-- The four bytes of a 32-bit value put it together again. -/
theorem bytes_sum (v : Nat) (h : v < 2 ^ 32) :
    ([0, 1, 2, 3].map (fun i => byte_of v i * 256 ^ i)).sum = v := by
  simp only [List.map, List.sum_cons, List.sum_nil, byte_of]
  norm_num
  omega

/-- The value returned by the interleaved `get_tickcount` is the counter as it
stands once the interrupts due before the `cli` have been served. -/
theorem get_tickcount_interleaved_value {ρ : Type} (m : Machine ρ) (order ks : List Nat)
    (ht : m.master_state.tickcount < 2 ^ 32) (ho : order.Perm [0, 1, 2, 3]) :
    (get_tickcount_interleaved order ks m).1 =
      (serve_irqs (ks.headD 0) m).master_state.tickcount := by
  simp only [get_tickcount_interleaved, get_tickcount_steps, List.singleton_append,
    List.cons_append, List.nil_append]
  rw [run_steps_last, loads_masked]
  · have hs : (order.map (fun i =>
        byte_of (serve_irqs (ks.headD 0) m).master_state.tickcount i * 256 ^ i)).sum =
        ([0, 1, 2, 3].map (fun i =>
        byte_of (serve_irqs (ks.headD 0) m).master_state.tickcount i * 256 ^ i)).sum :=
      (ho.map _).sum_eq
    simp only [exec_step, cli]
    rw [hs, bytes_sum _ (serve_irqs_tickcount_lt _ _ ht)]
    simp
  · simp [exec_step, cli]

/-- C5: `get_tickcount` reads the tick counter atomically with respect to the
timer interrupt.  In every interleaving of its steps (the four byte loads in
any order) with the handler, which runs only while the global
interrupt-enable flag is set, the value returned is the full counter value at
one instant between the call and the return: the instant of the `cli`.  It is
one of the counter values the run passes through, never a mixture of bytes
taken before and after an increment. -/
theorem get_tickcount_atomic {ρ : Type} (m : Machine ρ) (order ks : List Nat)
    (ht : m.master_state.tickcount < 2 ^ 32) (ho : order.Perm [0, 1, 2, 3]) :
    (get_tickcount_interleaved order ks m).1 =
      (serve_irqs (ks.headD 0) m).master_state.tickcount ∧
    (get_tickcount_interleaved order ks m).1 ∈ (get_tickcount_interleaved order ks m).2 ∧
    ((get_tickcount_interleaved order ks m).1 = m.master_state.tickcount ∨
     (get_tickcount_interleaved order ks m).1 =
       (m.master_state.tickcount + ks.headD 0) % 2 ^ 32) := by
  have hv := get_tickcount_interleaved_value m order ks ht ho
  refine ⟨hv, ?_, ?_⟩
  · rw [hv]
    simp only [get_tickcount_interleaved, get_tickcount_steps, List.singleton_append,
      List.cons_append, run_steps, List.map_cons, List.mem_cons]
    right
    left
    trivial
  · rw [hv]
    exact serve_irqs_tickcount _ m ht

/-- C5 on the counter going from 0x000000FF to 0x00000100 while the first
byte has been loaded: the protected read returns 0x000000FF, the value at the
`cli`, for both load orders. -/
theorem get_tickcount_atomic_witness :
    (machine_at 255 true).master_state.tickcount < 2 ^ 32 ∧
    [3, 2, 1, 0].Perm [0, 1, 2, 3] ∧
    (get_tickcount_interleaved [0, 1, 2, 3] [0, 0, 1] (machine_at 255 true)).1 = 255 ∧
    (get_tickcount_interleaved [3, 2, 1, 0] [0, 0, 0, 0, 1] (machine_at 255 true)).1 = 255 :=
  ⟨by decide, by decide,
   (get_tickcount_atomic (machine_at 255 true) [0, 1, 2, 3] [0, 0, 1] (by decide)
      (List.Perm.refl _)).1,
   (get_tickcount_atomic (machine_at 255 true) [3, 2, 1, 0] [0, 0, 0, 0, 1] (by decide)
      (by decide)).1⟩

/-- Without the `cli`/`sei` bracket the same interleavings tear the read:
0x000001FF when the low byte is loaded first, 0x00000000 when it is loaded
last.  The protection is what makes the read atomic. -/
theorem unprotected_read_torn :
    unprotected_read [0, 1, 2, 3] [0, 1] (machine_at 255 true) = 511 ∧
    unprotected_read [3, 2, 1, 0] [0, 0, 0, 1] (machine_at 255 true) = 0 := by
  constructor <;> decide

/-! ## Binding tracker -/

/-- Incrementing a count keeps the number of slots. -/
theorem tx_increment_length (id : TxId) (t : List possible_tx) :
    (tx_increment id t).length = t.length := by
  induction t with
  | nil => rfl
  | cons p ps ih =>
    unfold tx_increment
    split <;> simp [ih]

/-- Creating a slot keeps the number of slots. -/
theorem tx_create_length (id : TxId) (t : List possible_tx) :
    (tx_create id t).length = t.length := by
  induction t with
  | nil => rfl
  | cons p ps ih =>
    unfold tx_create
    split <;> simp [ih]

/-- An `observe` keeps the number of slots. -/
theorem observe_length (id : TxId) (t : List possible_tx) :
    (observe id t).length = t.length := by
  unfold observe
  split
  · exact tx_increment_length id t
  · exact tx_create_length id t

/-- The occupied identities of a table, slot by slot. -/
theorem occupied_ids_cons (p : possible_tx) (ps : List possible_tx) :
    occupied_ids (p :: ps) =
      if p.occupied then p.tx_id :: occupied_ids ps else occupied_ids ps := by
  unfold occupied_ids
  by_cases h : p.occupied = true <;> simp [List.filter_cons, h]

/-- An identity is seen exactly when an occupied slot holds it. -/
theorem tx_seen_iff (id : TxId) (t : List possible_tx) :
    tx_seen id t = true ↔ id ∈ occupied_ids t := by
  induction t with
  | nil => simp [tx_seen, occupied_ids]
  | cons p ps ih =>
    rw [occupied_ids_cons]
    unfold tx_seen at ih ⊢
    rw [List.any_cons, Bool.or_eq_true, ih]
    by_cases h : p.occupied = true
    · simp only [h, if_true, Bool.true_and, beq_iff_eq, List.mem_cons]
      exact or_congr_left eq_comm
    · simp [h]

/-- Incrementing a count adds no identity: the occupied identities afterwards are
among those before, in the same order (a count that wraps to zero frees its slot). -/
theorem tx_increment_sublist (id : TxId) (t : List possible_tx) :
    (occupied_ids (tx_increment id t)).Sublist (occupied_ids t) := by
  induction t with
  | nil => simp [tx_increment]
  | cons p ps ih =>
    unfold tx_increment
    split
    · next hc =>
      rw [occupied_ids_cons, occupied_ids_cons]
      simp only [Bool.and_eq_true] at hc
      simp only [hc.1, if_true]
      split
      · exact List.Sublist.refl _
      · exact List.sublist_cons_self _ _
    · rw [occupied_ids_cons, occupied_ids_cons]
      split
      · exact List.Sublist.cons₂ _ ih
      · exact ih

/-- After creating a slot, an occupied identity is the new one or an old one. -/
theorem tx_create_mem (id x : TxId) (t : List possible_tx)
    (h : x ∈ occupied_ids (tx_create id t)) : x = id ∨ x ∈ occupied_ids t := by
  induction t with
  | nil => simp [tx_create, occupied_ids] at h
  | cons p ps ih =>
    unfold tx_create at h
    rw [occupied_ids_cons]
    split at h
    · next hp =>
      rw [occupied_ids_cons] at h
      simp only [hp, if_true, List.mem_cons] at h ⊢
      rcases h with h | h
      · exact Or.inr (Or.inl h)
      · rcases ih h with h2 | h2
        · exact Or.inl h2
        · exact Or.inr (Or.inr h2)
    · next hp =>
      rw [occupied_ids_cons] at h
      simp only [possible_tx.occupied] at h
      simp only [hp] at h ⊢
      simp at h
      rcases h with h | h
      · exact Or.inl h
      · exact Or.inr h

/-- Creating a slot for an unseen identity keeps the occupied identities pairwise
distinct. -/
theorem tx_create_nodup (id : TxId) (t : List possible_tx)
    (hn : (occupied_ids t).Nodup) (hid : id ∉ occupied_ids t) :
    (occupied_ids (tx_create id t)).Nodup := by
  induction t with
  | nil => simp [tx_create, occupied_ids]
  | cons p ps ih =>
    unfold tx_create
    rw [occupied_ids_cons] at hn hid
    split
    · next hp =>
      simp only [hp, if_true, List.nodup_cons, List.mem_cons, not_or] at hn hid
      rw [occupied_ids_cons]
      simp only [hp, if_true, List.nodup_cons]
      refine ⟨?_, ih hn.2 hid.2⟩
      intro hmem
      rcases tx_create_mem id _ ps hmem with h | h
      · exact hid.1 h.symm
      · exact hn.1 h
    · next hp =>
      simp only [hp] at hn hid
      rw [occupied_ids_cons]
      simp only [possible_tx.occupied]
      simp
      exact ⟨hid, hn⟩

/-- On a table with every slot occupied, creating a slot changes nothing. -/
theorem tx_create_full (id : TxId) (t : List possible_tx)
    (h : (occupied_ids t).length = t.length) : tx_create id t = t := by
  induction t with
  | nil => rfl
  | cons p ps ih =>
    have hle : (occupied_ids ps).length ≤ ps.length := by
      unfold occupied_ids
      rw [List.length_map]
      exact List.length_filter_le _ _
    rw [occupied_ids_cons] at h
    unfold tx_create
    by_cases hp : p.occupied = true
    · simp only [hp, if_true, List.length_cons] at h ⊢
      rw [ih (by omega)]
    · simp only [hp] at h
      simp at h
      omega

/-- An `observe` keeps the occupied identities pairwise distinct. -/
theorem observe_nodup (id : TxId) (t : List possible_tx) (hn : (occupied_ids t).Nodup) :
    (occupied_ids (observe id t)).Nodup := by
  unfold observe
  split
  · exact hn.sublist (tx_increment_sublist id t)
  · next h =>
    apply tx_create_nodup id t hn
    rw [← tx_seen_iff]
    exact h

/-- Any sequence of `observe` calls keeps the slot count and the pairwise
distinctness of the occupied identities. -/
theorem observe_fold_inv (ids : List TxId) (t : List possible_tx)
    (hl : t.length = POSSIBLE_TX_COUNT) (hn : (occupied_ids t).Nodup) :
    (ids.foldl (fun t id => observe id t) t).length = POSSIBLE_TX_COUNT ∧
    (occupied_ids (ids.foldl (fun t id => observe id t) t)).Nodup := by
  induction ids generalizing t with
  | nil => exact ⟨hl, hn⟩
  | cons id rest ih =>
    rw [List.foldl_cons]
    exact ih (observe id t) ((observe_length id t).trans hl) (observe_nodup id t hn)

/-- There are at most as many occupied slots as slots. -/
theorem occupied_ids_length_le (t : List possible_tx) :
    (occupied_ids t).length ≤ t.length := by
  unfold occupied_ids
  rw [List.length_map]
  exact List.length_filter_le _ _

/-- An unseen identity observed on a full table leaves the table as it is. -/
theorem observe_unseen_full (id : TxId) (t : List possible_tx)
    (hfull : (occupied_ids t).length = t.length) (hid : id ∉ occupied_ids t) :
    observe id t = t := by
  unfold observe
  rw [← tx_seen_iff] at hid
  simp only [hid]
  exact tx_create_full id t hfull

/-- C6: the Binding Tracker never holds more than 4 distinct candidate
identities.  After every sequence of `observe` calls on the cleared table,
the table still has its `POSSIBLE_TX_COUNT` slots, the occupied slots hold
pairwise distinct identities and number at most 4, and an `observe` of an
unseen identity while all 4 slots are occupied leaves the table, identities
and counts, unchanged. -/
theorem binding_tracker_bounded (ids : List TxId) (id : TxId) :
    (observe_all ids).length = POSSIBLE_TX_COUNT ∧
    (occupied_ids (observe_all ids)).Nodup ∧
    (occupied_ids (observe_all ids)).length ≤ 4 ∧
    ((occupied_ids (observe_all ids)).length = POSSIBLE_TX_COUNT →
      id ∉ occupied_ids (observe_all ids) →
      observe id (observe_all ids) = observe_all ids) := by
  have hinv := observe_fold_inv ids possible_tx_list_reset rfl (by decide)
  refine ⟨hinv.1, hinv.2, ?_, ?_⟩
  · have h := occupied_ids_length_le (observe_all ids)
    have h4 : (observe_all ids).length = 4 := hinv.1
    omega
  · intro hfull hid
    apply observe_unseen_full id _ _ hid
    rw [hfull]
    exact hinv.1.symm

/-- C6 on four identities, one of them seen twice, followed by a fifth:
the fifth `observe` changes nothing. -/
theorem binding_tracker_bounded_witness :
    occupied_ids (observe_all [⟨1, 2, 3, 4⟩, ⟨5, 6, 7, 8⟩, ⟨1, 2, 3, 4⟩, ⟨9, 9, 9, 9⟩, ⟨0, 0, 0, 1⟩])
      = [⟨1, 2, 3, 4⟩, ⟨5, 6, 7, 8⟩, ⟨9, 9, 9, 9⟩, ⟨0, 0, 0, 1⟩] ∧
    observe ⟨7, 7, 7, 7⟩
        (observe_all [⟨1, 2, 3, 4⟩, ⟨5, 6, 7, 8⟩, ⟨1, 2, 3, 4⟩, ⟨9, 9, 9, 9⟩, ⟨0, 0, 0, 1⟩])
      = observe_all [⟨1, 2, 3, 4⟩, ⟨5, 6, 7, 8⟩, ⟨1, 2, 3, 4⟩, ⟨9, 9, 9, 9⟩, ⟨0, 0, 0, 1⟩] :=
  ⟨by decide,
   (binding_tracker_bounded
      [⟨1, 2, 3, 4⟩, ⟨5, 6, 7, 8⟩, ⟨1, 2, 3, 4⟩, ⟨9, 9, 9, 9⟩, ⟨0, 0, 0, 1⟩] ⟨7, 7, 7, 7⟩).2.2.2
      (by decide) (by decide)⟩

/-- The table after identity A seen twice and identity B seen once: A holds
count 2 in the first slot, B count 1 in the second, two slots stay free. -/
theorem observe_all_example :
    observe_all [⟨1, 2, 3, 4⟩, ⟨5, 6, 7, 8⟩, ⟨1, 2, 3, 4⟩] =
      [⟨⟨1, 2, 3, 4⟩, 2⟩, ⟨⟨5, 6, 7, 8⟩, 1⟩, ⟨⟨0, 0, 0, 0⟩, 0⟩, ⟨⟨0, 0, 0, 0⟩, 0⟩] := by
  decide

/-! ## Hop cursor -/

/-- The next cursor is a valid index. -/
theorem hop_next_lt (i : Nat) : hop_next i < NR_HOP_CHANNELS :=
  Nat.mod_lt _ (by decide)

/-- Received or missed, a cycle moves the cursor to the next position. -/
theorem hopping_cycle_hop_index (pkt : Option (List Nat)) (rs : radio_state_t) :
    (hopping_cycle pkt rs).hop_index = hop_next rs.hop_index := by
  cases pkt <;> rfl

/-- The positions used by consecutive cycles count up from the start position
modulo 16. -/
theorem hop_positions_eq (pkts : List (Option (List Nat))) (rs : radio_state_t)
    (hi : rs.hop_index < NR_HOP_CHANNELS) :
    hop_positions pkts rs =
      (List.range pkts.length).map (fun k => (rs.hop_index + k) % NR_HOP_CHANNELS) := by
  induction pkts generalizing rs with
  | nil => rfl
  | cons p ps ih =>
    rw [hop_positions, ih _ (by rw [hopping_cycle_hop_index]; exact hop_next_lt _),
      List.length_cons, List.range_succ_eq_map, List.map_cons, List.map_map,
      hopping_cycle_hop_index]
    congr 1
    · simp only [Nat.add_zero]
      exact (Nat.mod_eq_of_lt hi).symm
    · apply List.map_congr_left
      intro k _
      simp only [hop_next, NR_HOP_CHANNELS, Function.comp]
      omega

/-- Sixteen consecutive positions modulo 16 are the positions 0..15 in some
order. -/
theorem hop_rotation_perm (i : Nat) (hi : i < 16) :
    ((List.range 16).map (fun k => (i + k) % 16)).Perm (List.range 16) := by
  interval_cases i <;> decide

/-- C7: the hop cursor advances by exactly one position per expected-packet
cycle, whether the packet was received or missed, and wraps from 15 to 0.
For every cursor value `i` in 0..15 the next value is `(i + 1) mod 16`, which
is again a valid index into `hop_channels[16]`, and 16 consecutive cycles use
the positions `i, i + 1, ...` modulo 16 in that order, every position exactly
once. -/
theorem hop_cursor_advances (rs : radio_state_t) (pkt : Option (List Nat))
    (pkts : List (Option (List Nat)))
    (hi : rs.hop_index < NR_HOP_CHANNELS) (hl : pkts.length = NR_HOP_CHANNELS) :
    (hopping_cycle pkt rs).hop_index = (rs.hop_index + 1) % NR_HOP_CHANNELS ∧
    (hopping_cycle pkt rs).hop_index < NR_HOP_CHANNELS ∧
    (rs.hop_index = 15 → (hopping_cycle pkt rs).hop_index = 0) ∧
    hop_positions pkts rs =
      (List.range 16).map (fun k => (rs.hop_index + k) % 16) ∧
    (hop_positions pkts rs).Perm (List.range NR_HOP_CHANNELS) := by
  have hp := hop_positions_eq pkts rs hi
  rw [hl] at hp
  refine ⟨hopping_cycle_hop_index pkt rs, ?_, ?_, hp, ?_⟩
  · rw [hopping_cycle_hop_index]
    exact hop_next_lt _
  · intro h15
    rw [hopping_cycle_hop_index, h15]
    rfl
  · rw [hp]
    exact hop_rotation_perm rs.hop_index hi

/-- C7 from cursor 15, with packets received and missed in turn: the first
cycle wraps the cursor to 0, and 16 cycles use 15, 0, 1, ..., 14. -/
theorem hop_cursor_advances_witness :
    ({ radio_state_zero with hop_index := 15 } : radio_state_t).hop_index < NR_HOP_CHANNELS ∧
    (hopping_cycle none { radio_state_zero with hop_index := 15 }).hop_index = 0 ∧
    hop_positions
      [none, some [1, 2, 3, 4, 5, 6], none, none, some [], none, none, none,
       some [], some [], none, none, none, none, some [], none]
      { radio_state_zero with hop_index := 15 } =
      [15, 0, 1, 2, 3, 4, 5, 6, 7, 8, 9, 10, 11, 12, 13, 14] :=
  ⟨by decide,
   (hop_cursor_advances { radio_state_zero with hop_index := 15 } none
      [none, some [1, 2, 3, 4, 5, 6], none, none, some [], none, none, none,
       some [], some [], none, none, none, none, some [], none]
      (by decide) (by decide)).2.2.1 rfl,
   (hop_cursor_advances { radio_state_zero with hop_index := 15 } none
      [none, some [1, 2, 3, 4, 5, 6], none, none, some [], none, none, none,
       some [], some [], none, none, none, none, some [], none]
      (by decide) (by decide)).2.2.2.1⟩

/-! ## Integrity check and reset -/

/-- The reset loop touches only `RSTCTRL.SWRR`, which holds 1 after the first
turn. -/
theorem reset_loop_frame {ρ : Type} (fuel : Nat) (m : Machine ρ) :
    (reset_loop fuel m).diag = m.diag ∧
    (reset_loop fuel m).USART0_CTRLB = m.USART0_CTRLB ∧
    (reset_loop fuel m).SREG_I = m.SREG_I ∧
    (0 < fuel → (reset_loop fuel m).RSTCTRL_SWRR = 1) := by
  induction fuel generalizing m with
  | zero => simp [reset_loop]
  | succ k ih =>
    have h := ih { m with RSTCTRL_SWRR := 1 }
    rw [reset_loop]
    refine ⟨h.1, h.2.1, h.2.2.1, ?_⟩
    intro _
    cases k with
    | zero => simp [reset_loop]
    | succ j => exact h.2.2.2 (Nat.succ_pos j)

/-- Function `epic_fail` never returns: it emits the reason and the failure banner,
disables the serial port, masks interrupts and stays in the reset loop. -/
theorem epic_fail_spins {ρ : Type} (fuel : Nat) (reason : String) (m : Machine ρ) :
    ∃ m1 : Machine ρ, epic_fail fuel reason m = Outcome.spinning m1 ∧
      m1.diag = m.diag ++ [DiagOut.puts reason, DiagOut.puts "\r\nFAIL FAIL FAIL!\r\n\n\n"] ∧
      m1.USART0_CTRLB = 0 ∧ m1.SREG_I = false ∧ (0 < fuel → m1.RSTCTRL_SWRR = 1) := by
  refine ⟨_, rfl, ?_, ?_, ?_, ?_⟩
  · rw [(reset_loop_frame fuel _).1]
    simp [cli, _delay_ms, uninit_serial, diag_puts]
  · rw [(reset_loop_frame fuel _).2.1]
    simp [cli, _delay_ms, uninit_serial, diag_puts]
  · rw [(reset_loop_frame fuel _).2.2.1]
    simp [cli]
  · exact (reset_loop_frame fuel _).2.2.2

/-- For a string that fits the 16-bit address space, the `int` that
`integrity_check` compares with 8 differs from 8 exactly when the length
does. -/
theorem int_of_size_t_ne_8 (n : Nat) (h : n < 2 ^ 16) : int_of_size_t n ≠ 8 ↔ n ≠ 8 := by
  unfold int_of_size_t
  split <;> omega

/-- C8: an integrity check failure is escalated to a full device reset, and
only a failure is.  For every `end_marker` string, `integrity_check` calls
`epic_fail`, which emits the failure text, disables the serial port and ends
in the reset loop without returning, if and only if
`strlen(end_marker) != 8` or `end_marker[0] != 'S'`; on that path
"Integrity check ok" is not emitted.  Exactly when the marker has length 8
and starts with 'S' it emits "Integrity check ok" and returns. -/
theorem integrity_check_escalates {ρ : Type} (fuel : Nat) (end_marker : List Nat)
    (m : Machine ρ) (hlen : strlen end_marker < 2 ^ 16) :
    ((strlen end_marker ≠ 8 ∨ char_at end_marker 0 ≠ 'S'.toNat) →
      integrity_check fuel end_marker m = epic_fail fuel "Integrity check failed" m ∧
      ∃ m1 : Machine ρ, integrity_check fuel end_marker m = Outcome.spinning m1 ∧
        m1.diag = m.diag ++ [DiagOut.puts "Integrity check failed",
          DiagOut.puts "\r\nFAIL FAIL FAIL!\r\n\n\n"] ∧
        m1.USART0_CTRLB = 0 ∧ m1.SREG_I = false ∧ (0 < fuel → m1.RSTCTRL_SWRR = 1)) ∧
    ((strlen end_marker = 8 ∧ char_at end_marker 0 = 'S'.toNat) →
      integrity_check fuel end_marker m =
        Outcome.returned (diag_println "Integrity check ok" m)) ∧
    ((∃ m1 : Machine ρ, integrity_check fuel end_marker m = Outcome.spinning m1) ↔
      (strlen end_marker ≠ 8 ∨ char_at end_marker 0 ≠ 'S'.toNat)) := by
  have hfail : (strlen end_marker ≠ 8 ∨ char_at end_marker 0 ≠ 'S'.toNat) →
      integrity_check fuel end_marker m = epic_fail fuel "Integrity check failed" m := by
    intro hc
    have hc2 : int_of_size_t (strlen end_marker) ≠ 8 ∨ char_at end_marker 0 ≠ 'S'.toNat := by
      rcases hc with h | h
      · exact Or.inl ((int_of_size_t_ne_8 _ hlen).mpr h)
      · exact Or.inr h
    obtain ⟨m1, h1, -⟩ := epic_fail_spins fuel "Integrity check failed" m
    simp only [integrity_check, if_pos hc2, h1, Outcome.andThen]
  have hok : (strlen end_marker = 8 ∧ char_at end_marker 0 = 'S'.toNat) →
      integrity_check fuel end_marker m =
        Outcome.returned (diag_println "Integrity check ok" m) := by
    intro hc
    have hc2 : ¬ (int_of_size_t (strlen end_marker) ≠ 8 ∨ char_at end_marker 0 ≠ 'S'.toNat) := by
      intro h
      rcases h with h | h
      · exact (int_of_size_t_ne_8 _ hlen).mp h hc.1
      · exact h hc.2
    simp only [integrity_check, if_neg hc2, Outcome.andThen]
  refine ⟨?_, hok, ?_⟩
  · intro hc
    refine ⟨hfail hc, ?_⟩
    rw [hfail hc]
    exact epic_fail_spins fuel "Integrity check failed" m
  · constructor
    · rintro ⟨m1, h1⟩
      by_contra hc
      have hc3 : strlen end_marker = 8 ∧ char_at end_marker 0 = 'S'.toNat := by
        constructor
        · by_contra h
          exact hc (Or.inl h)
        · by_contra h
          exact hc (Or.inr h)
      rw [hok hc3] at h1
      cases h1
    · intro hc
      rw [hfail hc]
      obtain ⟨m1, h1, -⟩ := epic_fail_spins fuel "Integrity check failed" m
      exact ⟨m1, h1⟩

/-- C8 on a marker of length 8 starting with 'S' (the check passes and
returns) and on a marker of length 8 starting with 'X' (the check ends in the
reset loop, the ok line not emitted). -/
theorem integrity_check_escalates_witness :
    integrity_check 3 [83, 72, 65, 82, 75, 69, 78, 68] (machine_at 0 false) =
      Outcome.returned (diag_println "Integrity check ok" (machine_at 0 false)) ∧
    (∃ m1 : Machine Unit,
      integrity_check 3 [88, 72, 65, 82, 75, 69, 78, 68] (machine_at 0 false) =
        Outcome.spinning m1 ∧
      m1.diag = (machine_at 0 false).diag ++ [DiagOut.puts "Integrity check failed",
        DiagOut.puts "\r\nFAIL FAIL FAIL!\r\n\n\n"] ∧
      m1.USART0_CTRLB = 0 ∧ m1.SREG_I = false ∧ (0 < 3 → m1.RSTCTRL_SWRR = 1)) :=
  ⟨(integrity_check_escalates 3 [83, 72, 65, 82, 75, 69, 78, 68] (machine_at 0 false)
      (by decide)).2.1 ⟨by decide, by decide⟩,
   ((integrity_check_escalates 3 [88, 72, 65, 82, 75, 69, 78, 68] (machine_at 0 false)
      (by decide)).1 (Or.inr (by decide))).2⟩

/-! ## Timer and serial bring-up -/

/-- An enabled timer in periodic interrupt mode whose counter is `d` below the
compare value raises the capture flag after exactly `d + 1` clocks, with the
counter back at zero. -/
theorem run_to_capture_eq (d : Nat) : ∀ (fuel : Nat) (t : TCB_t),
    t.CTRLA % 2 = 1 → t.CTRLB % 8 = 0 → t.CCMP < 2 ^ 16 → t.CNT + d = t.CCMP → d < fuel →
    run_to_capture fuel t = some (d + 1, { t with CNT := 0, INTFLAGS_CAPT := true }) := by
  induction d with
  | zero =>
    intro fuel t hen hmode _ hcnt hfuel
    obtain ⟨f, rfl⟩ : ∃ f, fuel = f + 1 := ⟨fuel - 1, by omega⟩
    have hc : t.CNT = t.CCMP := by omega
    simp [run_to_capture, TCB_clock, hen, hmode, hc]
  | succ k ih =>
    intro fuel t hen hmode hlt hcnt hfuel
    obtain ⟨f, rfl⟩ : ∃ f, fuel = f + 1 := ⟨fuel - 1, by omega⟩
    have hne : t.CNT ≠ t.CCMP := by omega
    have hu : u16 (t.CNT + 1) = t.CNT + 1 := Nat.mod_eq_of_lt (by omega)
    have hstep : TCB_clock { t with INTFLAGS_CAPT := false } =
        { t with INTFLAGS_CAPT := false, CNT := t.CNT + 1 } := by
      simp [TCB_clock, hen, hmode, hne, hu]
    have hrec := ih f { t with INTFLAGS_CAPT := false, CNT := t.CNT + 1 } hen hmode hlt
      (by simp only; omega) (by omega)
    rw [run_to_capture]
    simp only [hstep, hrec]
    simp

/-- C9, as the code has it: `init_timer` programs the compare value 50000,
which fits the 16-bit compare register without truncation, starts the counter
at 0 with the timer clocked at `CLK_PER/2`, and leaves
`master_state.tickcount` equal to 0.  Counting from 0 up to 50000 and
restarting takes 50001 timer clocks, in the first period and in every later
one, so one tick spans `50001 * 2 = 100002` CPU clock cycles and not the
100,000 the comment in `init_timer` asks for: 100 ticks take longer than one
second at `F_CPU = 10,000,000` Hz. -/
theorem init_timer_tick_period {ρ : Type} (m : Machine ρ) :
    compare_value = 50000 ∧ 50000 < 2 ^ 16 ∧
    (init_timer m).TCB1.CCMP = 50000 ∧
    (init_timer m).TCB1.CNT = 0 ∧
    (init_timer m).TCB1.CTRLA = TCB_ENABLE_bm ||| TCB_CLKSEL_CLKDIV2_gc ∧
    TCB_clk_div (init_timer m).TCB1.CTRLA = some 2 ∧
    run_to_capture 65536 (init_timer m).TCB1 =
      some (50001, { (init_timer m).TCB1 with INTFLAGS_CAPT := true }) ∧
    run_to_capture 65536 { (init_timer m).TCB1 with INTFLAGS_CAPT := true } =
      some (50001, { (init_timer m).TCB1 with INTFLAGS_CAPT := true }) ∧
    50001 * 2 = 100002 ∧
    100002 ≠ 100000 ∧
    F_CPU < 100002 * 100 ∧
    (init_timer m).master_state.tickcount = 0 := by
  have hccmp : (init_timer m).TCB1.CCMP = 50000 := by
    show u16 compare_value = 50000
    decide
  have hcnt : (init_timer m).TCB1.CNT = 0 := rfl
  have hen : (init_timer m).TCB1.CTRLA % 2 = 1 := by
    show (TCB_ENABLE_bm ||| TCB_CLKSEL_CLKDIV2_gc) % 2 = 1
    decide
  have hmode : (init_timer m).TCB1.CTRLB % 8 = 0 := rfl
  have h1 := run_to_capture_eq 50000 65536 (init_timer m).TCB1 hen hmode
    (by rw [hccmp]; decide) (by rw [hccmp, hcnt]) (by decide)
  have h2 := run_to_capture_eq 50000 65536
    { (init_timer m).TCB1 with INTFLAGS_CAPT := true } hen hmode
    (by show (init_timer m).TCB1.CCMP < 2 ^ 16; rw [hccmp]; decide)
    (by show (init_timer m).TCB1.CNT + 50000 = (init_timer m).TCB1.CCMP; rw [hccmp, hcnt])
    (by decide)
  refine ⟨by decide, by decide, hccmp, hcnt, rfl, ?_, ?_, ?_, by decide, by decide,
    by decide, rfl⟩
  · show TCB_clk_div (TCB_ENABLE_bm ||| TCB_CLKSEL_CLKDIV2_gc) = some 2
    decide
  · rw [h1]
    rfl
  · rw [h2]
    rfl

/-- The compare value that gives the period the comment asks for: counting
from 0 up to 49999 and restarting takes 50000 timer clocks, 100000 CPU clock
cycles at `CLK_PER/2`. -/
theorem tick_period_at_49999 {ρ : Type} (m : Machine ρ) :
    run_to_capture 65536 { (init_timer m).TCB1 with CCMP := 49999 } =
      some (50000, { (init_timer m).TCB1 with CCMP := 49999, INTFLAGS_CAPT := true }) ∧
    50000 * 2 = 100000 ∧ 100000 * 100 = F_CPU := by
  have hen : (init_timer m).TCB1.CTRLA % 2 = 1 := by
    show (TCB_ENABLE_bm ||| TCB_CLKSEL_CLKDIV2_gc) % 2 = 1
    decide
  have hlt : (49999 : Nat) < 2 ^ 16 := by decide
  have h1 := run_to_capture_eq 49999 65536 { (init_timer m).TCB1 with CCMP := 49999 }
    hen rfl hlt (Nat.zero_add 49999) (by decide)
  refine ⟨?_, by decide, by decide⟩
  rw [h1]
  rfl

/-- C10: the baud parameter of the diagnostic UART is computed without loss.
With `clk_per_hz = 10,000,000` and `want_baud_hz = 230400` the products
`64 * clk_per_hz` and `16 * want_baud_hz` stay below `2 ^ 32`, the integer
quotient is 173, which `init_serial` stores in the 16-bit `baud_param` and in
`USART0.BAUD` without truncation, and the baud rate that 173 produces,
`64 * clk_per_hz / (16 * 173)`, is within 1 % of 230400. -/
theorem baud_param_exact {ρ : Type} (m : Machine ρ) :
    64 * F_CPU < 2 ^ 32 ∧ 16 * 230400 < 2 ^ 32 ∧
    u32 (64 * F_CPU) / u32 (16 * 230400) = 173 ∧
    (64 * F_CPU) / (16 * 230400) = 173 ∧ 173 < 2 ^ 16 ∧
    baud_param F_CPU 230400 = 173 ∧
    (init_serial m).USART0_BAUD = 173 ∧
    64 * F_CPU / (16 * 173) = 231213 ∧
    (231213 - 230400) * 100 ≤ 230400 ∧
    230400 * (16 * 173) ≤ 64 * F_CPU ∧
    (64 * F_CPU - 230400 * (16 * 173)) * 100 ≤ 230400 * (16 * 173) := by
  refine ⟨by decide, by decide, by decide, by decide, by decide, by decide, ?_,
    by decide, by decide, by decide, by decide⟩
  show baud_param (u32 F_CPU) (u32 230400) = 173
  decide

end SharkBite
